import Mathlib

/-!
Verification development for the AI-Traffic-Control coding-agent server.

The definitions below are a shallow embedding of the Rust source:
* `src/settings.rs`   — layered settings resolution and patch application
* `src/server.rs`     — host allowlist, message summarization, URL ingestion limits
* `src/discovery.rs`  — path sandbox (`resolve_under_root`)
* `src/file_ops.rs`   — file write/move/delete with dry-run policy
* `src/agent/engine.rs` and `src/agent/tools/` — tool registry and dispatch

Machine strings are Lean `String`s, byte buffers are `List Nat`, filesystem
paths are lists of name components, and fallible Rust functions return
`Option`/`Except`.  Rust `f32` settings values are carried as `Int`: the
settings-resolution code never inspects the numeric value, only presence.
-/

/-! ## Settings model (`src/settings.rs`) -/

/-- Mirrors `ModelParams` (settings.rs:3-8); `f32` carried as `Int`. -/
structure ModelParams where
  temperature : Option Int
  max_tokens : Option Nat
  top_p : Option Int
deriving DecidableEq

/-- Mirrors `ModelParamsPatch` (settings.rs:10-15): `some none` clears, `some (some v)` sets. -/
structure ModelParamsPatch where
  temperature : Option (Option Int)
  max_tokens : Option (Option Nat)
  top_p : Option (Option Int)
deriving DecidableEq

/-- Mirrors `ToolPolicies` (settings.rs:17-21). -/
structure ToolPolicies where
  dry_run : Option Bool
  max_read_bytes : Option Nat
deriving DecidableEq

/-- Mirrors `ToolPoliciesPatch` (settings.rs:23-27). -/
structure ToolPoliciesPatch where
  dry_run : Option (Option Bool)
  max_read_bytes : Option (Option Nat)
deriving DecidableEq

/-- Mirrors `SessionSettings` (settings.rs:29-36). -/
structure SessionSettings where
  default_model : Option String
  model_params : Option ModelParams
  project_root : Option String
  tool_policies : Option ToolPolicies
  network_allowlist : Option (List String)
deriving DecidableEq

/-- Mirrors `SessionSettingsPatch` (settings.rs:38-45). -/
structure SessionSettingsPatch where
  default_model : Option (Option String)
  model_params : Option ModelParamsPatch
  project_root : Option (Option String)
  tool_policies : Option ToolPoliciesPatch
  network_allowlist : Option (Option (List String))
deriving DecidableEq

/-- Mirrors `GlobalConfigDefaults` (settings.rs:47-52): no `project_root` field. -/
structure GlobalConfigDefaults where
  default_model : Option String
  model_params : Option ModelParams
  tool_policies : Option ToolPolicies
deriving DecidableEq

/-- Mirrors `RequestOverrides` (settings.rs:54-59): no `project_root` field. -/
structure RequestOverrides where
  model : Option String
  model_params : Option ModelParams
  tool_policies : Option ToolPolicies
deriving DecidableEq

/-- Mirrors `EffectiveSettings` (settings.rs:61-67). -/
structure EffectiveSettings where
  model : Option String
  model_params : ModelParams
  project_root : Option String
  tool_policies : ToolPolicies
deriving DecidableEq

/-- Rust `Option::or_else`: keep the first operand when present. -/
def optOr {α : Type} (a b : Option α) : Option α :=
  match a with
  | some v => some v
  | none => b

/-- Mirrors `resolve_effective_settings` (settings.rs:69-128): each scalar is
resolved request-then-session-then-global via `Option::or_else`, nested structs
per inner field via `as_ref().and_then(...)`; `project_root` is copied from the
session layer alone (settings.rs:125). -/
def resolve_effective_settings (global : GlobalConfigDefaults) (session : SessionSettings)
    (request : RequestOverrides) : EffectiveSettings :=
  { model := optOr request.model (optOr session.default_model global.default_model)
  , model_params :=
    { temperature :=
        optOr (request.model_params.bind (fun p => p.temperature))
          (optOr (session.model_params.bind (fun p => p.temperature))
            (global.model_params.bind (fun p => p.temperature)))
    , max_tokens :=
        optOr (request.model_params.bind (fun p => p.max_tokens))
          (optOr (session.model_params.bind (fun p => p.max_tokens))
            (global.model_params.bind (fun p => p.max_tokens)))
    , top_p :=
        optOr (request.model_params.bind (fun p => p.top_p))
          (optOr (session.model_params.bind (fun p => p.top_p))
            (global.model_params.bind (fun p => p.top_p))) }
  , project_root := session.project_root
  , tool_policies :=
    { dry_run :=
        optOr (request.tool_policies.bind (fun p => p.dry_run))
          (optOr (session.tool_policies.bind (fun p => p.dry_run))
            (global.tool_policies.bind (fun p => p.dry_run)))
    , max_read_bytes :=
        optOr (request.tool_policies.bind (fun p => p.max_read_bytes))
          (optOr (session.tool_policies.bind (fun p => p.max_read_bytes))
            (global.tool_policies.bind (fun p => p.max_read_bytes))) } }

/-- Rust `Default` for `ModelParams`: all fields `None`. -/
def ModelParams.defaultVal : ModelParams := ⟨none, none, none⟩

/-- Rust `Default` for `ToolPolicies`: all fields `None`. -/
def ToolPolicies.defaultVal : ToolPolicies := ⟨none, none⟩

/-- Inner patch loop of `apply_patch` for `model_params` (settings.rs:135-141). -/
def applyModelParamsPatch (cur : ModelParams) (p : ModelParamsPatch) : ModelParams :=
  { temperature := p.temperature.getD cur.temperature
  , max_tokens := p.max_tokens.getD cur.max_tokens
  , top_p := p.top_p.getD cur.top_p }

/-- Inner patch loop of `apply_patch` for `tool_policies` (settings.rs:145-150). -/
def applyToolPoliciesPatch (cur : ToolPolicies) (p : ToolPoliciesPatch) : ToolPolicies :=
  { dry_run := p.dry_run.getD cur.dry_run
  , max_read_bytes := p.max_read_bytes.getD cur.max_read_bytes }

/-- Mirrors `SessionSettings::apply_patch` (settings.rs:131-154): presence in the
patch overwrites the top-level field; for the nested structs the current value
(`unwrap_or_default`) is patched per inner field and re-wrapped in `Some`. -/
def SessionSettings.apply_patch (s : SessionSettings) (patch : SessionSettingsPatch) :
    SessionSettings :=
  { default_model := patch.default_model.getD s.default_model
  , model_params :=
      match patch.model_params with
      | some mp => some (applyModelParamsPatch (s.model_params.getD ModelParams.defaultVal) mp)
      | none => s.model_params
  , project_root := patch.project_root.getD s.project_root
  , tool_policies :=
      match patch.tool_policies with
      | some tp => some (applyToolPoliciesPatch (s.tool_policies.getD ToolPolicies.defaultVal) tp)
      | none => s.tool_policies
  , network_allowlist := patch.network_allowlist.getD s.network_allowlist }

/-- The empty patch: every top-level (hence every nested) field absent. -/
def emptySessionSettingsPatch : SessionSettingsPatch := ⟨none, none, none, none, none⟩

/-! ## Host allowlist (`src/server.rs:348-353`) -/

/-- Mirrors `is_allowed_host` (server.rs:348-353): deny when the allowlist is
absent, otherwise test `h == host` (case-sensitive equality) over the entries. -/
def is_allowed_host (allowlist : Option (List String)) (host : String) : Bool :=
  match allowlist with
  | none => false
  | some list => list.any (fun h => h == host)

/-- ASCII lowercase folding, character by character (the effect of Rust
`str::to_lowercase` on host names). -/
def strLower (s : String) : String := ⟨s.data.map Char.toLower⟩

/-- Stated from the spec's words for comparison with `is_allowed_host`:
"case-insensitive exact match of `host` against any listed entry". -/
def is_allowed_host_spec (allowlist : Option (List String)) (host : String) : Bool :=
  match allowlist with
  | none => false
  | some list => list.any (fun h => strLower h == strLower host)

/-! ## Message summarization (`src/server.rs:138-140`) -/

/-- The U+2026 ellipsis appended by `format!` in `summarize`. -/
def ellipsisChar : Char := Char.ofNat 0x2026

/-- UTF-8 byte length of a string, as Rust `str::len` computes it. -/
def utf8Len (cs : List Char) : Nat := (cs.map Char.utf8Size).sum

/-- Rust byte slicing `&content[..max]`: returns the characters covering the
first `max` bytes when `max` falls on a character boundary, and `none` (a Rust
panic) when `max` splits a multi-byte character or exceeds the length. -/
def byteTake : List Char → Nat → Option (List Char)
  | _, 0 => some []
  | [], _ + 1 => none
  | c :: cs, n + 1 =>
      if c.utf8Size ≤ n + 1 then (byteTake cs (n + 1 - c.utf8Size)).map (fun t => c :: t)
      else none

/-- Mirrors `summarize` (server.rs:138-140): keep the content when its byte
length is at most `max`, otherwise slice the first `max` BYTES and append an
ellipsis; `none` models the panic of `&content[..max]` off a char boundary. -/
def summarize (content : List Char) (max : Nat) : Option (List Char) :=
  if utf8Len content ≤ max then some content
  else (byteTake content max).map (fun t => t ++ [ellipsisChar])

/-! ## Tool registry and dispatch (`src/agent/tools/mod.rs`, `src/agent/engine.rs`) -/

/-- Tool-event record (session.rs:15-23) without the nondeterministic
`id`/`created_at` fields, which carry no dispatch logic. -/
structure ToolEventM where
  tool : String
  summary : String
  status : String
  error : Option String
deriving DecidableEq

/-- Mirrors `ToolResult` (agent/tools/mod.rs:21-24); the JSON `data` payload is
carried as an uninterpreted optional string. -/
structure ToolResultM where
  summary : String
  data : Option String
deriving DecidableEq

/-- The names registered by `ToolRegistry::with_default_tools` (agent/tools/mod.rs:38-54). -/
def defaultToolNames : List String :=
  ["include_file", "include_url", "add_rule",
   "discovery.list", "discovery.search", "discovery.read",
   "files.write", "files.move", "files.delete",
   "git.status", "git.diff", "git.add_all", "git.commit"]

/-- Mirrors `ToolRegistry::get` (agent/tools/mod.rs:56-58): lookup by exact name. -/
def registryGet (name : String) : Option String :=
  defaultToolNames.find? (fun t => t == name)

/-- Mirrors `dispatch_tool` (agent/engine.rs:57-65).  The session lookup is a
boolean (found or not), and the dynamically dispatched `tool.run` outcome is a
parameter `runRes`.  Returns the propagated result together with the session's
tool-event log after the call.  Note the `?` on `tool.run` at engine.rs:62:
a run failure returns before any event is appended. -/
def dispatch_tool (sessionFound : Bool) (toolName : String)
    (runRes : Except String ToolResultM) (log : List ToolEventM) :
    Except String (String × Option String) × List ToolEventM :=
  if sessionFound = false then (Except.error "session not found", log)
  else
    match registryGet toolName with
    | none => (Except.error "unknown tool", log)
    | some tname =>
      match runRes with
      | Except.error e => (Except.error e, log)
      | Except.ok r =>
          (Except.ok (r.summary, r.data), log ++ [⟨tname, r.summary, "ok", none⟩])

/-! ## URL ingestion byte limits (`src/agent/tools/include_url.rs`, `src/server.rs`) -/

/-- Mirrors the `max_bytes` computation of `IncludeUrlTool::run`
(include_url.rs:12): `args.max_bytes` defaulted to 262144, with no upper cap. -/
def include_url_max_bytes (max_bytes_arg : Option Nat) : Nat :=
  max_bytes_arg.getD 262144

/-- Mirrors the `max_bytes` computation of the `ingest_url` HTTP handler
(server.rs:384): default 256 KiB, capped at 2 MiB. -/
def ingest_url_max_bytes (max_bytes_arg : Option Nat) : Nat :=
  min (max_bytes_arg.getD (256 * 1024)) (2 * 1024 * 1024)

/-- Mirrors the byte budget of `fetch_and_extract` (server.rs:360): the slice
used is `bytes[..max_bytes]` when the response is longer, the whole body
otherwise, so the number of response bytes used is `min respLen maxBytes`. -/
def fetch_bytes_used (respLen maxBytes : Nat) : Nat := min respLen maxBytes

/-! ## Path sandbox (`src/discovery.rs:43-74`)

Paths are modelled on a Unix layout: an absolute canonical path is a list of
name components below `/` (`AbsNames`), and raw user paths are lists of
`Comp` mirroring `std::path::Component`.  The filesystem is a finite list of
existing absolute paths; it is symlink-free, so `Path::canonicalize` succeeds
exactly on the paths that exist and returns them unchanged. -/

/-- Canonical absolute path: its name components below the filesystem root. -/
abbrev AbsNames := List String

/-- Mirrors `std::path::Component` on Unix (no `Prefix` component). -/
inductive Comp where
  | rootDir : Comp
  | parentDir : Comp
  | curDir : Comp
  | normal : String → Comp
deriving DecidableEq

/-- Rust `PathBuf::push` of one component: pushing the root component replaces
the whole path; anything else is appended. -/
def pushComp (acc : List Comp) (c : Comp) : List Comp :=
  match c with
  | Comp.rootDir => [Comp.rootDir]
  | c => acc ++ [c]

/-- Rust `PathBuf::pop`: truncate to the parent; a bare root (or an empty path)
has no parent and is left unchanged. -/
def popComp (acc : List Comp) : List Comp :=
  if acc = [Comp.rootDir] then acc else acc.dropLast

/-- One step of the lexical normalization fold of `resolve_under_root`
(discovery.rs:55-59): `..` pops, `.` is skipped, every other component is pushed. -/
def normStep (acc : List Comp) (c : Comp) : List Comp :=
  match c with
  | Comp.parentDir => popComp acc
  | Comp.curDir => acc
  | other => pushComp acc other

/-- The lexical normalization of `resolve_under_root` (discovery.rs:52-61):
fold `normStep` over the components, starting from the empty path. -/
def normalizeComps (comps : List Comp) : List Comp :=
  comps.foldl normStep []

/-- View a canonical absolute path as a component list. -/
def absPath (names : AbsNames) : List Comp := Comp.rootDir :: names.map Comp.normal

/-- Rust `Path::join`: an absolute right operand replaces the left. -/
def joinPath (base rel : List Comp) : List Comp :=
  match rel with
  | Comp.rootDir :: _ => rel
  | _ => base ++ rel

/-- Collect the names of a run of `normal` components; `none` on anything else. -/
def namesOfAux : List Comp → Option AbsNames
  | [] => some []
  | Comp.normal s :: rest => (namesOfAux rest).map (fun ns => s :: ns)
  | _ => none

/-- Recover the name components of an absolute, fully normalized path. -/
def namesOf? (p : List Comp) : Option AbsNames :=
  match p with
  | Comp.rootDir :: rest => namesOfAux rest
  | _ => none

/-- Mirrors `Path::canonicalize` on a symlink-free filesystem `fs`: defined on
already-normalized absolute paths, succeeding iff the path exists. -/
def canonicalizeFs (fs : List AbsNames) (p : List Comp) : Option AbsNames :=
  match namesOf? p with
  | some ns => if ns ∈ fs then some ns else none
  | none => none

/-- Rust `Path::parent`: drop the final component; the bare root and the empty
path have no parent. -/
def parentOf (p : List Comp) : Option (List Comp) :=
  if p = [] ∨ p = [Comp.rootDir] then none else some p.dropLast

/-- Mirrors `resolve_under_root` (discovery.rs:49-74) over the symlink-free
filesystem model.  The root is given as a canonical absolute path; the guard
`root ∈ fs` is `normalize_root`'s requirement that the root canonicalizes
(discovery.rs:43-47).  Returns the resolved path's name components
(the `canonical` of the `Ok` arm, the non-canonicalized `full_path` of the
`Err` arm), or `none` for Denied. -/
def resolve_under_root (fs : List AbsNames) (root : AbsNames) (rel : List Comp) :
    Option AbsNames :=
  if root ∈ fs then
    let joined := joinPath (absPath root) rel
    let normalized := normalizeComps joined
    let full_path := joinPath (absPath root) normalized
    match canonicalizeFs fs full_path with
    | some canonical => if root.isPrefixOf canonical then some canonical else none
    | none =>
        let parent := (parentOf full_path).getD (absPath root)
        match canonicalizeFs fs parent with
        | some parent_canon =>
            if root.isPrefixOf parent_canon then namesOf? full_path else none
        | none => none
  else none

/-- Lexical target of a resolution: the name components of the normalized
join of root and user path (the `normalized`/`full_path` of discovery.rs:52-62). -/
def lexicalTarget (root : AbsNames) (rel : List Comp) : Option AbsNames :=
  namesOf? (normalizeComps (joinPath (absPath root) rel))

/-- A user path lexically escapes the root when the normalized join of root and
path does not have the root as a component prefix. -/
def lexicallyEscapes (root : AbsNames) (rel : List Comp) : Bool :=
  match lexicalTarget root rel with
  | some ns => !root.isPrefixOf ns
  | none => true

/-- A filesystem listing is prefix-closed: every existing path's parent exists. -/
def prefixClosed (fs : List AbsNames) : Prop := ∀ p ∈ fs, p.dropLast ∈ fs

instance instDecidablePrefixClosed (fs : List AbsNames) : Decidable (prefixClosed fs) :=
  decidable_of_iff (∀ p ∈ fs, p.dropLast ∈ fs) Iff.rfl

/-- Stated from the spec's words for comparison with `resolve_under_root`:
the deepest existing ancestor of a path — the longest prefix of it that exists,
scanning from the path itself upward. -/
def deepestExistingAncestor (fs : List AbsNames) (ns : AbsNames) : Option AbsNames :=
  (((List.range (ns.length + 1)).reverse).map (fun k => ns.take k)).find?
    (fun p => fs.contains p)

/-- Stated from the spec's words (spec §4.1 step 4) for comparison with
`resolve_under_root`: for a not-yet-existing path, canonicalize its deepest
existing ancestor and apply the same starts-with check. -/
def resolve_spec_ancestor (fs : List AbsNames) (root : AbsNames) (rel : List Comp) :
    Option AbsNames :=
  if root ∈ fs then
    match lexicalTarget root rel with
    | some ns =>
        match deepestExistingAncestor fs ns with
        | some anc => if root.isPrefixOf anc then some ns else none
        | none => none
    | none => none
  else none

/-! ## File operations (`src/file_ops.rs`)

The mutable filesystem is a finite state: a list of existing directories and
an association list of files with byte contents.  Path resolution reuses
`resolve_under_root` over the listing of all existing paths. -/

/-- Filesystem state: directories, and files with their byte contents. -/
structure FsState where
  dirs : List AbsNames
  files : List (AbsNames × List Nat)
deriving DecidableEq

/-- All existing paths of a filesystem state (directories and files). -/
def existingPaths (st : FsState) : List AbsNames :=
  st.dirs ++ st.files.map Prod.fst

/-- Contents of the file at `p`, when `p` is a file. -/
def lookupFile (st : FsState) (p : AbsNames) : Option (List Nat) :=
  (st.files.find? (fun e => e.1 == p)).map Prod.snd

/-- Rust `File::create` + `write_all`: truncate-or-create the file at `p`. -/
def setFile (st : FsState) (p : AbsNames) (content : List Nat) : FsState :=
  if st.files.any (fun e => e.1 == p) then
    { st with files := st.files.map (fun e => if e.1 == p then (p, content) else e) }
  else { st with files := st.files ++ [(p, content)] }

/-- Mirrors `EditPreview` (file_ops.rs:8-12); previews kept at the byte level. -/
structure EditPreview where
  before_preview : List Nat
  after_preview : List Nat
deriving DecidableEq

/-- Mirrors `OperationResult` (file_ops.rs:14-18). -/
structure OperationResult (T : Type) where
  applied : Bool
  output : T
deriving DecidableEq

/-- Mirrors `cap_utf8` (file_ops.rs:20-23): truncate to `max_bytes` bytes.  The
final `String::from_utf8_lossy` conversion is presentation-level; the preview
is kept as its underlying bytes here. -/
def cap_utf8 (bytes : List Nat) (max_bytes : Nat) : List Nat :=
  bytes.take max_bytes

/-- Mirrors `write_file_under_root` (file_ops.rs:25-59).  Returns the Rust
result together with the filesystem state after the call.  Reading an existing
directory fails (`read_to_end` on a directory), a missing file with
`create=false` fails, and the write itself happens only when `dry_run` is
false (file_ops.rs:47-50). -/
def write_file_under_root (st : FsState) (root : AbsNames) (rel : List Comp)
    (content : List Nat) (create dry_run : Bool) (preview_bytes : Nat) :
    Except String (OperationResult EditPreview) × FsState :=
  match resolve_under_root (existingPaths st) root rel with
  | none => (Except.error "path outside root", st)
  | some path =>
    if path ∈ existingPaths st then
      match lookupFile st path with
      | none => (Except.error "read failed", st)
      | some before =>
          (Except.ok ⟨!dry_run, ⟨cap_utf8 before preview_bytes, cap_utf8 content preview_bytes⟩⟩,
           if dry_run then st else setFile st path content)
    else if create = false then
      (Except.error "file does not exist (use create=true to create)", st)
    else
      (Except.ok ⟨!dry_run, ⟨cap_utf8 [] preview_bytes, cap_utf8 content preview_bytes⟩⟩,
       if dry_run then st else setFile st path content)

/-- Rust `fs::create_dir_all`: add every missing ancestor of `ns` (and `ns`
itself) as a directory. -/
def createDirAll (st : FsState) (ns : AbsNames) : FsState :=
  { st with
    dirs := st.dirs ++
      (((List.range (ns.length + 1)).map (fun k => ns.take k)).filter
        (fun p => p ∉ existingPaths st)) }

/-- Rust `fs::rename`: every path in the subtree rooted at `f` is re-rooted at `t`. -/
def renameSubtree (st : FsState) (f t : AbsNames) : FsState :=
  let re := fun p => if f.isPrefixOf p then t ++ p.drop f.length else p
  { dirs := st.dirs.map re
  , files := st.files.map (fun e => (re e.1, e.2)) }

/-- Mirrors `move_file_under_root` (file_ops.rs:61-75): resolve both endpoints,
require the source to exist, and only when `dry_run` is false create the
destination's parent directories and rename (file_ops.rs:70-73).  The output
models the `"{from} -> {to}"` display string as the pair of paths. -/
def move_file_under_root (st : FsState) (root : AbsNames) (from_rel to_rel : List Comp)
    (dry_run : Bool) : Except String (OperationResult (AbsNames × AbsNames)) × FsState :=
  match resolve_under_root (existingPaths st) root from_rel with
  | none => (Except.error "source outside root", st)
  | some f =>
    match resolve_under_root (existingPaths st) root to_rel with
    | none => (Except.error "dest outside root", st)
    | some t =>
      if f ∈ existingPaths st then
        (Except.ok ⟨!dry_run, (f, t)⟩,
         if dry_run then st else renameSubtree (createDirAll st t.dropLast) f t)
      else (Except.error "source does not exist", st)

/-- Rust `fs::remove_dir_all`: drop the whole subtree rooted at `p`. -/
def removeSubtree (st : FsState) (p : AbsNames) : FsState :=
  { dirs := st.dirs.filter (fun q => !p.isPrefixOf q)
  , files := st.files.filter (fun e => !p.isPrefixOf e.1) }

/-- Mirrors `delete_file_under_root` (file_ops.rs:77-88): resolve, require
existence, and only when `dry_run` is false remove the file (or the directory
subtree, file_ops.rs:84-86).  The output models the displayed path. -/
def delete_file_under_root (st : FsState) (root : AbsNames) (rel : List Comp)
    (dry_run : Bool) : Except String (OperationResult AbsNames) × FsState :=
  match resolve_under_root (existingPaths st) root rel with
  | none => (Except.error "path outside root", st)
  | some p =>
    if p ∈ existingPaths st then
      (Except.ok ⟨!dry_run, p⟩,
       if dry_run then st
       else if st.files.any (fun e => e.1 == p) then
         { st with files := st.files.filter (fun e => e.1 != p) }
       else removeSubtree st p)
    else (Except.error "file does not exist", st)

/-! ## Theorems -/

/-- C5: `resolve_effective_settings` picks, for each scalar, the first non-null
value in the order request, session, global, and resolves the nested
`model_params`/`tool_policies` structs per inner field, not per struct; in
particular a request carrying only `temperature` does not erase the session's
`max_tokens`. -/
theorem resolve_effective_settings_per_field (g : GlobalConfigDefaults)
    (s : SessionSettings) (r : RequestOverrides) :
    (resolve_effective_settings g s r).model =
      optOr r.model (optOr s.default_model g.default_model) ∧
    (resolve_effective_settings g s r).model_params.temperature =
      optOr (r.model_params.bind (fun p => p.temperature))
        (optOr (s.model_params.bind (fun p => p.temperature))
          (g.model_params.bind (fun p => p.temperature))) ∧
    (resolve_effective_settings g s r).model_params.max_tokens =
      optOr (r.model_params.bind (fun p => p.max_tokens))
        (optOr (s.model_params.bind (fun p => p.max_tokens))
          (g.model_params.bind (fun p => p.max_tokens))) ∧
    (resolve_effective_settings g s r).model_params.top_p =
      optOr (r.model_params.bind (fun p => p.top_p))
        (optOr (s.model_params.bind (fun p => p.top_p))
          (g.model_params.bind (fun p => p.top_p))) ∧
    (resolve_effective_settings g s r).tool_policies.dry_run =
      optOr (r.tool_policies.bind (fun p => p.dry_run))
        (optOr (s.tool_policies.bind (fun p => p.dry_run))
          (g.tool_policies.bind (fun p => p.dry_run))) ∧
    (resolve_effective_settings g s r).tool_policies.max_read_bytes =
      optOr (r.tool_policies.bind (fun p => p.max_read_bytes))
        (optOr (s.tool_policies.bind (fun p => p.max_read_bytes))
          (g.tool_policies.bind (fun p => p.max_read_bytes))) ∧
    (∀ t mt, r.model_params = some ⟨some t, none, none⟩ →
      s.model_params.bind (fun p => p.max_tokens) = some mt →
      (resolve_effective_settings g s r).model_params.max_tokens = some mt) := by
  refine ⟨rfl, rfl, rfl, rfl, rfl, rfl, ?_⟩
  intro t mt hr hs
  simp [resolve_effective_settings, hr, hs, optOr]

/-- Witness for C5 at a concrete triple: the request sets only `temperature`,
and the session's `max_tokens = 1024` survives resolution. -/
theorem resolve_effective_settings_per_field_witness :
    (resolve_effective_settings
      ⟨some "g", none, none⟩
      ⟨some "s", some ⟨some 2, some 1024, none⟩, some "/repo", none, none⟩
      ⟨none, some ⟨some 7, none, none⟩, none⟩).model_params.max_tokens = some 1024 :=
  (resolve_effective_settings_per_field
    ⟨some "g", none, none⟩
    ⟨some "s", some ⟨some 2, some 1024, none⟩, some "/repo", none, none⟩
    ⟨none, some ⟨some 7, none, none⟩, none⟩).2.2.2.2.2.2 7 1024 rfl rfl

/-- C6: applying the empty patch (every top-level and nested field absent)
leaves any `SessionSettings` value unchanged. -/
theorem apply_patch_empty (s : SessionSettings) :
    s.apply_patch emptySessionSettingsPatch = s := by
  cases s
  rfl

/-- C10: the effective `project_root` equals exactly the session's
`project_root`; the request and global layers (which carry no such field)
can never set, override, or clear it. -/
theorem effective_project_root_from_session_only (g g' : GlobalConfigDefaults)
    (s : SessionSettings) (r r' : RequestOverrides) :
    (resolve_effective_settings g s r).project_root = s.project_root ∧
    (resolve_effective_settings g s r).project_root =
      (resolve_effective_settings g' s r').project_root :=
  ⟨rfl, rfl⟩

/-- C3 counterexample: the claim's case-insensitive reading fails on the code.
With allowlist `["Example.com"]` and host `"example.com"` the spec-side
case-insensitive matcher accepts, but `is_allowed_host` compares with `==`
and denies. -/
theorem is_allowed_host_case_cex :
    is_allowed_host (some ["Example.com"]) "example.com" = false ∧
    is_allowed_host_spec (some ["Example.com"]) "example.com" = true := by
  constructor
  · decide
  · decide

/-- C3 (amended): `is_allowed_host` returns `false` for an absent allowlist and
for the empty list, and for a non-empty allowlist returns `true` iff the host
equals some listed entry by case-SENSITIVE exact comparison — no wildcards, no
subdomain inheritance, no case folding. -/
theorem is_allowed_host_amended (A : List String) (h : String) :
    is_allowed_host none h = false ∧
    is_allowed_host (some []) h = false ∧
    (is_allowed_host (some A) h = true ↔ h ∈ A) := by
  refine ⟨rfl, rfl, ?_⟩
  simp [is_allowed_host, List.any_eq_true]

set_option maxRecDepth 4096 in
/-- C8: at a 201-byte content whose byte 200 falls inside a multi-byte
character, `summarize` slices the first 200 bytes off a character boundary; the
model returns `none`, the Rust code panics.  The claim's character-boundary
safety is the evident intent; the byte-indexed slice is the bug. -/
theorem summarize_byte_slice_panics :
    summarize (List.replicate 199 'a' ++ [Char.ofNat 233]) 200 = none := by
  decide

/-- C2 counterexample: a dispatch whose tool run fails appends NO tool event:
the session log stays empty and the error alone is propagated, contrary to the
claimed `ToolEvent{status=error}` append. -/
theorem dispatch_tool_failure_no_event_cex :
    dispatch_tool true "include_url" (Except.error "boom") [] =
      (Except.error "boom", []) := rfl

/-- C2 (amended): when the tool's run fails, `dispatch_tool` propagates the
failure with the session's tool-event log unchanged — no event of any status is
appended; only a successful run appends a `status=ok` event. -/
theorem dispatch_tool_failure_propagates (toolName tname e : String)
    (log : List ToolEventM) (h : registryGet toolName = some tname) :
    dispatch_tool true toolName (Except.error e) log = (Except.error e, log) ∧
    (∀ r : ToolResultM, dispatch_tool true toolName (Except.ok r) log =
      (Except.ok (r.summary, r.data), log ++ [⟨tname, r.summary, "ok", none⟩])) := by
  constructor
  · simp [dispatch_tool, h]
  · intro r
    simp [dispatch_tool, h]

/-- Witness for C2 (amended) at a concrete failing dispatch of `files.write`. -/
theorem dispatch_tool_failure_propagates_witness :
    dispatch_tool true "files.write" (Except.error "disk full") [] =
      (Except.error "disk full", []) :=
  (dispatch_tool_failure_propagates "files.write" "files.write" "disk full" [] (by decide)).1

/-- C9 counterexample: the `include_url` tool applies no 2 MiB hard cap — a
caller-supplied `max_bytes` of 3 MiB is used as-is, and a 3 MiB response is
consumed whole, exceeding 2 MiB. -/
theorem include_url_no_hard_cap_cex :
    include_url_max_bytes (some 3145728) = 3145728 ∧
    fetch_bytes_used 3145728 (include_url_max_bytes (some 3145728)) = 3145728 ∧
    2 * 1024 * 1024 < 3145728 := by
  refine ⟨rfl, ?_, by norm_num⟩
  simp [fetch_bytes_used, include_url_max_bytes]

/-- C9 (amended): `include_url` uses at most `max_bytes` response bytes and
defaults `max_bytes` to 262144 when absent, but applies no upper cap; the
2 MiB hard cap exists only in the `ingest_url` HTTP handler. -/
theorem include_url_max_bytes_amended (arg : Option Nat) (respLen : Nat) :
    fetch_bytes_used respLen (include_url_max_bytes arg) ≤ include_url_max_bytes arg ∧
    include_url_max_bytes none = 262144 ∧
    ingest_url_max_bytes arg ≤ 2 * 1024 * 1024 :=
  ⟨Nat.min_le_right _ _, rfl, Nat.min_le_right _ _⟩

/-! ### Path sandbox lemmas -/

/-- Bridge between the boolean `isPrefixOf` used by the embedding and the
`<+:` relation. -/
theorem isPrefixOf_true_iff {l₁ l₂ : List String} :
    l₁.isPrefixOf l₂ = true ↔ l₁ <+: l₂ := by
  exact List.isPrefixOf_iff_prefix

/-- Dropping the last element yields a list prefix. -/
theorem dropLast_isPrefix {α : Type} (l : List α) : l.dropLast <+: l := by
  exact List.dropLast_prefix l

/-- A proper list prefix survives dropping the last element of the larger list. -/
theorem isPrefix_dropLast_of_ne {α : Type} {l₁ l₂ : List α}
    (h : l₁ <+: l₂) (hne : l₁ ≠ l₂) : l₁ <+: l₂.dropLast := by
  obtain ⟨t, rfl⟩ := h
  cases t with
  | nil => simp at hne
  | cons b tb =>
      rw [List.dropLast_append_cons]
      exact ⟨(b :: tb).dropLast, rfl⟩

/-- Reading back the names of a run of `normal` components. -/
theorem namesOfAux_map_normal (ms : AbsNames) :
    namesOfAux (ms.map Comp.normal) = some ms := by
  induction ms with
  | nil => rfl
  | cons a tl ih => simp [namesOfAux, ih]

/-- Reading back the names of a canonical absolute path. -/
theorem namesOf?_absPath (ms : AbsNames) :
    namesOf? (Comp.rootDir :: ms.map Comp.normal) = some ms := by
  simp [namesOf?, namesOfAux_map_normal]

/-- `canonicalizeFs` on a normalized absolute path is an existence test. -/
theorem canonicalizeFs_absPath (fs : List AbsNames) (ms : AbsNames) :
    canonicalizeFs fs (Comp.rootDir :: ms.map Comp.normal) =
      if ms ∈ fs then some ms else none := by
  simp [canonicalizeFs, namesOf?_absPath]

/-- One normalization step keeps a path absolute and dot-free. -/
theorem normStep_abs (ns : AbsNames) (c : Comp) :
    ∃ ms : AbsNames,
      normStep (Comp.rootDir :: ns.map Comp.normal) c =
        Comp.rootDir :: ms.map Comp.normal := by
  cases c with
  | rootDir => exact ⟨[], rfl⟩
  | curDir => exact ⟨ns, rfl⟩
  | normal s =>
      refine ⟨ns ++ [s], ?_⟩
      simp [normStep, pushComp]
  | parentDir =>
      cases ns with
      | nil => exact ⟨[], rfl⟩
      | cons a tl =>
          refine ⟨(a :: tl).dropLast, ?_⟩
          simp only [normStep, popComp, List.map_cons]
          rw [List.dropLast_cons₂]
          rw [← List.map_cons Comp.normal a tl, List.map_dropLast]
          simp

/-- The whole normalization fold keeps a path absolute and dot-free. -/
theorem foldl_normStep_abs (rest : List Comp) : ∀ ns : AbsNames,
    ∃ ms : AbsNames,
      List.foldl normStep (Comp.rootDir :: ns.map Comp.normal) rest =
        Comp.rootDir :: ms.map Comp.normal := by
  induction rest with
  | nil => intro ns; exact ⟨ns, rfl⟩
  | cons c rest ih =>
      intro ns
      obtain ⟨ms, hms⟩ := normStep_abs ns c
      obtain ⟨out, hout⟩ := ih ms
      exact ⟨out, by rw [List.foldl_cons, hms, hout]⟩

/-- The join of an absolute base with any user path starts at the root. -/
theorem joinPath_absPath_head (root : AbsNames) (rel : List Comp) :
    ∃ rest, joinPath (absPath root) rel = Comp.rootDir :: rest := by
  cases rel with
  | nil => exact ⟨root.map Comp.normal, by simp [joinPath, absPath]⟩
  | cons c t =>
      cases c with
      | rootDir => exact ⟨t, rfl⟩
      | parentDir => exact ⟨root.map Comp.normal ++ Comp.parentDir :: t, by simp [joinPath, absPath]⟩
      | curDir => exact ⟨root.map Comp.normal ++ Comp.curDir :: t, by simp [joinPath, absPath]⟩
      | normal s => exact ⟨root.map Comp.normal ++ Comp.normal s :: t, by simp [joinPath, absPath]⟩

/-- The normalized join of root and user path is absolute and dot-free. -/
theorem normalize_joined_abs (root : AbsNames) (rel : List Comp) :
    ∃ ms : AbsNames,
      normalizeComps (joinPath (absPath root) rel) =
        Comp.rootDir :: ms.map Comp.normal := by
  obtain ⟨rest, hrest⟩ := joinPath_absPath_head root rel
  rw [hrest]
  unfold normalizeComps
  rw [List.foldl_cons]
  have h0 : normStep [] Comp.rootDir = Comp.rootDir :: ([] : AbsNames).map Comp.normal := rfl
  rw [h0]
  exact foldl_normStep_abs rest []

/-- A prefix-closed filesystem containing any path contains the filesystem root. -/
theorem prefixClosed_nil_mem (fs : List AbsNames) (hpc : prefixClosed fs) :
    ∀ p : AbsNames, p ∈ fs → ([] : AbsNames) ∈ fs := by
  suffices h : ∀ n : Nat, ∀ p : AbsNames, p.length ≤ n → p ∈ fs → ([] : AbsNames) ∈ fs by
    intro p hp
    exact h p.length p le_rfl hp
  intro n
  induction n with
  | zero =>
      intro p hlen hp
      have : p = [] := List.eq_nil_of_length_eq_zero (Nat.le_zero.mp hlen)
      rwa [this] at hp
  | succ n ih =>
      intro p hlen hp
      cases p with
      | nil => exact hp
      | cons a tl =>
          have hd : (a :: tl).dropLast ∈ fs := hpc _ hp
          have hl : (a :: tl).dropLast.length ≤ n := by
            simp [List.length_dropLast] at hlen ⊢
            omega
          exact ih _ hl hd

/-- Joining an absolute right operand replaces the base. -/
theorem joinPath_absolute (base t : List Comp) :
    joinPath base (Comp.rootDir :: t) = Comp.rootDir :: t := rfl

/-- Reading back the names of a normalized absolute path, cons form. -/
theorem namesOf?_cons (a : String) (tl : List String) :
    namesOf? (Comp.rootDir :: Comp.normal a :: tl.map Comp.normal) = some (a :: tl) := by
  have h := namesOf?_absPath (a :: tl)
  simpa using h

/-- The parent of a normalized absolute path with at least one name. -/
theorem parentOf_absPath_cons (a : String) (tl : List String) :
    parentOf (Comp.rootDir :: (a :: tl).map Comp.normal) =
      some (Comp.rootDir :: ((a :: tl).dropLast).map Comp.normal) := by
  have hne : ¬(Comp.rootDir :: (a :: tl).map Comp.normal = [] ∨
      Comp.rootDir :: (a :: tl).map Comp.normal = [Comp.rootDir]) := by
    simp
  rw [parentOf, if_neg hne, List.map_cons, List.dropLast_cons₂,
    ← List.map_cons Comp.normal a tl, List.map_dropLast]

/-- C1: any user path that lexically escapes the root — enough `..` components
to leave it, or an absolute path to a sibling — is Denied by
`resolve_under_root`: over a prefix-closed symlink-free filesystem the function
returns a path only when it lies within the canonical root. -/
theorem resolve_under_root_denies_lexical_escape
    (fs : List AbsNames) (root : AbsNames) (rel : List Comp)
    (hpc : prefixClosed fs) (hesc : lexicallyEscapes root rel = true) :
    resolve_under_root fs root rel = none := by
  by_cases hr : root ∈ fs
  · obtain ⟨ms, hms⟩ := normalize_joined_abs root rel
    have hnames : lexicalTarget root rel = some ms := by
      unfold lexicalTarget
      rw [hms]
      exact namesOf?_absPath ms
    have hpre : root.isPrefixOf ms = false := by
      unfold lexicallyEscapes at hesc
      rw [hnames] at hesc
      simpa using hesc
    unfold resolve_under_root
    rw [if_pos hr]
    simp only [hms, joinPath_absolute, canonicalizeFs_absPath]
    by_cases hm : ms ∈ fs
    · simp [hm, hpre]
    · rw [if_neg hm]
      cases ms with
      | nil => exact absurd (prefixClosed_nil_mem fs hpc root hr) hm
      | cons a tl =>
          rw [parentOf_absPath_cons]
          simp only [Option.getD_some, canonicalizeFs_absPath]
          by_cases hpd : (a :: tl).dropLast ∈ fs
          · have hpp : root.isPrefixOf ((a :: tl).dropLast) = false := by
              cases hq : root.isPrefixOf ((a :: tl).dropLast)
              · rfl
              · have h1 : root <+: (a :: tl).dropLast := isPrefixOf_true_iff.mp hq
                have h2 : root <+: (a :: tl) := h1.trans (dropLast_isPrefix _)
                have h3 := isPrefixOf_true_iff.mpr h2
                simp [hpre] at h3
            simp [hpd, hpp]
          · simp [hpd]
  · simp [resolve_under_root, hr]

/-- Witness for C1: a prefix-closed filesystem, root `/a/b`, and the traversal
`../../etc` — lexically escaping — are Denied. -/
theorem resolve_under_root_denies_lexical_escape_witness :
    prefixClosed [[], ["a"], ["a", "b"], ["etc"]] ∧
    lexicallyEscapes ["a", "b"] [Comp.parentDir, Comp.parentDir, Comp.normal "etc"] = true ∧
    resolve_under_root [[], ["a"], ["a", "b"], ["etc"]] ["a", "b"]
      [Comp.parentDir, Comp.parentDir, Comp.normal "etc"] = none :=
  ⟨by decide, by decide,
    resolve_under_root_denies_lexical_escape _ _ _ (by decide) (by decide)⟩

/-- C7 counterexample: creating `newdir/newfile` under an existing root `/r`
(with `newdir` absent).  The spec's deepest-existing-ancestor rule accepts the
path (the deepest existing ancestor `/r` is canonical and under the root), but
`resolve_under_root` canonicalizes only the immediate parent `/r/newdir`, which
does not exist, and Denies. -/
theorem resolve_ancestor_rule_cex :
    resolve_spec_ancestor [[], ["r"]] ["r"] [Comp.normal "newdir", Comp.normal "newfile"] =
      some ["r", "newdir", "newfile"] ∧
    resolve_under_root [[], ["r"]] ["r"] [Comp.normal "newdir", Comp.normal "newfile"] =
      none := by
  constructor
  · decide
  · decide

/-- C7 (amended): for a target under the root that does not yet exist,
`resolve_under_root` canonicalizes only the IMMEDIATE parent of the normalized
path: it accepts the path iff that parent exists (its canonical form then lies
under the root); a new path whose parent is also missing is Denied. -/
theorem resolve_under_root_nonexistent_checks_parent
    (fs : List AbsNames) (root : AbsNames) (rel : List Comp) (ms : AbsNames)
    (hr : root ∈ fs) (hms : lexicalTarget root rel = some ms)
    (hnot : ms ∉ fs) (hunder : root <+: ms) :
    resolve_under_root fs root rel = if ms.dropLast ∈ fs then some ms else none := by
  obtain ⟨ms', hms'⟩ := normalize_joined_abs root rel
  have hlt : lexicalTarget root rel = some ms' := by
    unfold lexicalTarget
    rw [hms']
    exact namesOf?_absPath ms'
  have hmm : ms' = ms := by
    rw [hms] at hlt
    exact (Option.some.inj hlt).symm
  subst hmm
  unfold resolve_under_root
  rw [if_pos hr]
  simp only [hms', joinPath_absolute, canonicalizeFs_absPath]
  rw [if_neg hnot]
  cases ms' with
  | nil =>
      have hroot : root = [] := List.prefix_nil.mp hunder
      rw [hroot] at hr
      exact absurd hr hnot
  | cons a tl =>
      rw [parentOf_absPath_cons]
      simp only [Option.getD_some, canonicalizeFs_absPath]
      by_cases hpd : (a :: tl).dropLast ∈ fs
      · have hne : root ≠ a :: tl := by
          intro h
          rw [h] at hr
          exact hnot hr
        have h1 : root <+: (a :: tl).dropLast := isPrefix_dropLast_of_ne hunder hne
        have h2 : root.isPrefixOf ((a :: tl).dropLast) = true := isPrefixOf_true_iff.mpr h1
        simp [hpd, h2, namesOf?_cons]
      · simp [hpd]

/-- Witness for C7 (amended): creating `new.txt` directly under the existing
root `/r` is accepted, returning the non-canonicalized joined path. -/
theorem resolve_under_root_nonexistent_checks_parent_witness :
    resolve_under_root [[], ["r"]] ["r"] [Comp.normal "new.txt"] = some ["r", "new.txt"] := by
  have h := resolve_under_root_nonexistent_checks_parent [[], ["r"]] ["r"]
    [Comp.normal "new.txt"] ["r", "new.txt"] (by decide) (by decide) (by decide) (by decide)
  rw [h]
  decide

/-! ### Dry-run safety -/

/-- A returned operation result, when successful, reports `applied = false`. -/
def resultNotApplied {T : Type} (res : Except String (OperationResult T)) : Prop :=
  match res with
  | Except.error _ => True
  | Except.ok r => r.applied = false

/-- A successful write result carries previews capped at `preview_bytes`. -/
def previewsCapped (res : Except String (OperationResult EditPreview)) (pb : Nat) : Prop :=
  match res with
  | Except.error _ => True
  | Except.ok r =>
      r.output.before_preview.length ≤ pb ∧ r.output.after_preview.length ≤ pb

/-- Dry-run write returns the state unchanged. -/
theorem write_dry_run_state (st : FsState) (root : AbsNames) (rel : List Comp)
    (content : List Nat) (create : Bool) (pb : Nat) :
    (write_file_under_root st root rel content create true pb).2 = st := by
  unfold write_file_under_root
  split
  · rfl
  · split
    · split
      · rfl
      · rfl
    · split
      · rfl
      · rfl

/-- Dry-run write reports `applied = false` and capped previews. -/
theorem write_dry_run_result (st : FsState) (root : AbsNames) (rel : List Comp)
    (content : List Nat) (create : Bool) (pb : Nat) :
    resultNotApplied (write_file_under_root st root rel content create true pb).1 ∧
    previewsCapped (write_file_under_root st root rel content create true pb).1 pb := by
  unfold write_file_under_root
  split
  · exact ⟨trivial, trivial⟩
  · split
    · split
      · exact ⟨trivial, trivial⟩
      · refine ⟨rfl, ?_, ?_⟩ <;> simp [cap_utf8]
    · split
      · exact ⟨trivial, trivial⟩
      · refine ⟨rfl, ?_, ?_⟩ <;> simp [cap_utf8]

/-- Dry-run move returns the state unchanged and `applied = false`. -/
theorem move_dry_run (st : FsState) (root : AbsNames) (from_rel to_rel : List Comp) :
    (move_file_under_root st root from_rel to_rel true).2 = st ∧
    resultNotApplied (move_file_under_root st root from_rel to_rel true).1 := by
  unfold move_file_under_root
  split
  · exact ⟨rfl, trivial⟩
  · split
    · exact ⟨rfl, trivial⟩
    · split
      · exact ⟨rfl, rfl⟩
      · exact ⟨rfl, trivial⟩

/-- Dry-run delete returns the state unchanged and `applied = false`. -/
theorem delete_dry_run (st : FsState) (root : AbsNames) (rel : List Comp) :
    (delete_file_under_root st root rel true).2 = st ∧
    resultNotApplied (delete_file_under_root st root rel true).1 := by
  unfold delete_file_under_root
  split
  · exact ⟨rfl, trivial⟩
  · split
    · exact ⟨rfl, rfl⟩
    · exact ⟨rfl, trivial⟩

/-- C4: with `dry_run = true`, `files.write`, `files.move` and `files.delete`
leave the filesystem state unchanged and report `applied = false`; the write
additionally returns before/after previews capped at `preview_bytes` bytes. -/
theorem dry_run_leaves_filesystem_unchanged (st : FsState) (root : AbsNames)
    (rel from_rel to_rel del_rel : List Comp) (content : List Nat)
    (create : Bool) (pb : Nat) :
    (write_file_under_root st root rel content create true pb).2 = st ∧
    resultNotApplied (write_file_under_root st root rel content create true pb).1 ∧
    previewsCapped (write_file_under_root st root rel content create true pb).1 pb ∧
    (move_file_under_root st root from_rel to_rel true).2 = st ∧
    resultNotApplied (move_file_under_root st root from_rel to_rel true).1 ∧
    (delete_file_under_root st root del_rel true).2 = st ∧
    resultNotApplied (delete_file_under_root st root del_rel true).1 :=
  ⟨write_dry_run_state st root rel content create pb,
   (write_dry_run_result st root rel content create pb).1,
   (write_dry_run_result st root rel content create pb).2,
   (move_dry_run st root from_rel to_rel).1,
   (move_dry_run st root from_rel to_rel).2,
   (delete_dry_run st root del_rel).1,
   (delete_dry_run st root del_rel).2⟩
